import Mathlib

/-! Shallow embedding of the UltraStar chart quantizer and serializer
(`ultrastar_generator.py`).  Python floats are modelled as exact rationals
(`ℚ`); the one transcendental computation (`np.log2` in
`frequency_to_midi`) is modelled over `ℝ` with `Real.logb`.  The Python
built-in `round` (ties to even) is modelled by `pyRound`, and the Python
`int()` truncation toward zero by `pytrunc`. -/

namespace UltraStar

/-- Python `int(x)`: truncation toward zero. -/
def pytrunc (q : ℚ) : ℤ :=
  if 0 ≤ q then ⌊q⌋ else ⌈q⌉

/-- Python 3 `round(x)` (no digits argument): round half to even. -/
def pyRound {α : Type} [LinearOrderedField α] [FloorRing α] (x : α) : ℤ :=
  if x - ⌊x⌋ < 1/2 then ⌊x⌋
  else if 1/2 < x - ⌊x⌋ then ⌊x⌋ + 1
  else if ⌊x⌋ % 2 = 0 then ⌊x⌋ else ⌊x⌋ + 1

theorem le_pyRound {α : Type} [LinearOrderedField α] [FloorRing α] (x : α) :
    ⌊x⌋ ≤ pyRound x := by
  unfold pyRound
  split_ifs <;> omega

theorem pyRound_le {α : Type} [LinearOrderedField α] [FloorRing α] (x : α) :
    pyRound x ≤ ⌊x⌋ + 1 := by
  unfold pyRound
  split_ifs <;> omega

theorem pyRound_mono {α : Type} [LinearOrderedField α] [FloorRing α]
    {x y : α} (h : x ≤ y) : pyRound x ≤ pyRound y := by
  rcases lt_or_le ⌊x⌋ ⌊y⌋ with hf | hf
  · calc pyRound x ≤ ⌊x⌋ + 1 := pyRound_le x
      _ ≤ ⌊y⌋ := by omega
      _ ≤ pyRound y := le_pyRound y
  · have hfe : ⌊x⌋ = ⌊y⌋ := le_antisymm (Int.floor_le_floor h) hf
    have hxy : x - (⌊y⌋ : α) ≤ y - (⌊y⌋ : α) := by linarith
    unfold pyRound
    rw [hfe]
    split_ifs with h1 h2 h3 h4 h5 h6 h7 h8
    all_goals first
      | omega
      | (exfalso; linarith)

/-- Rounding an integer literal returns that integer. -/
theorem pyRound_intCast {α : Type} [LinearOrderedField α] [FloorRing α] (n : ℤ) :
    pyRound ((n : α)) = n := by
  unfold pyRound
  rw [Int.floor_intCast]
  have : (n : α) - (n : α) = 0 := by ring
  rw [this]
  norm_num

/-- Model of `time_to_beats` (ultrastar_generator.py lines 370-383):
```
time_ms = time_seconds * 1000
if time_ms <= gap_ms: return 0
beats = (time_ms - gap_ms) * bpm / (60000 / beat_factor)
return max(0, int(round(beats)))
```
`gap_ms` and `beat_factor` are Python ints; `60000 / beat_factor` is
Python float division.
-/
def time_to_beats (time_seconds : ℚ) (bpm : ℚ) (gap_ms : ℤ) (beat_factor : ℤ) : ℤ :=
  let time_ms := time_seconds * 1000
  if time_ms ≤ (gap_ms : ℚ) then 0
  else max 0 (pyRound ((time_ms - (gap_ms : ℚ)) * bpm / (60000 / (beat_factor : ℚ))))

theorem time_to_beats_nonneg (t bpm : ℚ) (g bf : ℤ) :
    0 ≤ time_to_beats t bpm g bf := by
  unfold time_to_beats
  dsimp only
  split_ifs <;> simp [le_max_left]

/-- The duration conversion inlined at ultrastar_generator.py line 412:
`duration_beats = max(1, self.time_to_beats(duration, bpm, 0, beat_factor))`.
-/
def duration_to_beats (duration : ℚ) (bpm : ℚ) (beat_factor : ℤ) : ℤ :=
  max 1 (time_to_beats duration bpm 0 beat_factor)

/-- C1: `time_to_beats` is monotone non-decreasing in the time argument for
fixed positive bpm, non-negative gap and positive beat factor: no later
sample quantizes to an earlier beat than an earlier sample. -/
theorem time_to_beats_mono (t1 t2 bpm : ℚ) (gap_ms beat_factor : ℤ)
    (h12 : t1 ≤ t2) (hbpm : 0 < bpm) (hgap : 0 ≤ gap_ms) (hbf : 0 < beat_factor) :
    time_to_beats t1 bpm gap_ms beat_factor ≤ time_to_beats t2 bpm gap_ms beat_factor := by
  unfold time_to_beats
  have hmul : t1 * 1000 ≤ t2 * 1000 := by linarith
  by_cases h2 : t2 * 1000 ≤ (gap_ms : ℚ)
  · have h1 : t1 * 1000 ≤ (gap_ms : ℚ) := le_trans hmul h2
    simp [h1, h2]
  · by_cases h1 : t1 * 1000 ≤ (gap_ms : ℚ)
    · simp only [h1, if_true, h2, if_false]
      exact le_max_left 0 _
    · simp only [h1, if_false, h2]
      have hbf' : (0 : ℚ) < (beat_factor : ℚ) := by exact_mod_cast hbf
      have hD : (0 : ℚ) < 60000 / (beat_factor : ℚ) := by positivity
      have harg : (t1 * 1000 - (gap_ms : ℚ)) * bpm / (60000 / (beat_factor : ℚ))
          ≤ (t2 * 1000 - (gap_ms : ℚ)) * bpm / (60000 / (beat_factor : ℚ)) := by
        rw [div_le_div_iff_of_pos_right hD]
        apply mul_le_mul_of_nonneg_right _ hbpm.le
        linarith
      exact max_le_max le_rfl (pyRound_mono harg)

/-- Witness for C1 at concrete inputs. -/
theorem time_to_beats_mono_witness :
    time_to_beats 1 120 0 4 ≤ time_to_beats 2 120 0 4 :=
  time_to_beats_mono 1 2 120 0 4 (by norm_num) (by norm_num) (by norm_num) (by norm_num)

/-- Counterexample to C2 as stated: at duration 0.1 s and bpm 120 with the
default beat factor 4, the emitted duration is 1 beat, strictly less than
the claimed minimum of 2 beats. -/
theorem duration_to_beats_lt_two :
    duration_to_beats (1/10) 120 4 = 1 ∧ duration_to_beats (1/10) 120 4 < 2 := by
  constructor <;> norm_num [duration_to_beats, time_to_beats, pyRound]

theorem one_le_duration_to_beats (duration bpm : ℚ) (beat_factor : ℤ) :
    1 ≤ duration_to_beats duration bpm beat_factor :=
  le_max_left 1 _

/-- C2 (amended): the duration-to-beats conversion used when emitting notes
is clamped to a minimum of 1 beat, so no serialized note has zero or
negative length. -/
theorem duration_to_beats_pos (duration bpm : ℚ) (beat_factor : ℤ) :
    1 ≤ duration_to_beats duration bpm beat_factor :=
  one_le_duration_to_beats duration bpm beat_factor

/-- Model of `frequency_to_midi` (ultrastar_generator.py lines 195-209):
```
if frequency <= 0: return 0
midi_standard = 69 + 12 * np.log2(frequency / 440.0)
ultrastar_note = int(round(midi_standard - 48))
return max(0, min(36, ultrastar_note))
```
-/
noncomputable def frequency_to_midi (frequency : ℚ) : ℤ :=
  if frequency ≤ 0 then 0
  else
    let midi_standard : ℝ := 69 + 12 * Real.logb 2 ((frequency : ℝ) / 440)
    let ultrastar_note : ℤ := pyRound (midi_standard - 48)
    max 0 (min 36 ultrastar_note)

theorem frequency_to_midi_220 : frequency_to_midi 220 = 9 := by
  have h0 : ¬ ((220 : ℚ) ≤ 0) := by norm_num
  unfold frequency_to_midi
  rw [if_neg h0]
  have hq : (((220 : ℚ) : ℝ) / 440) = (2 : ℝ)⁻¹ := by norm_num
  have hl : Real.logb 2 ((2 : ℝ)⁻¹) = -1 := by
    rw [Real.logb_inv, Real.logb_self_eq_one (by norm_num)]
  have harg : (69 : ℝ) + 12 * Real.logb 2 (((220 : ℚ) : ℝ) / 440) - 48 = ((9 : ℤ) : ℝ) := by
    rw [hq, hl]; norm_num
  dsimp only
  rw [harg, pyRound_intCast]
  norm_num

theorem frequency_to_midi_440 : frequency_to_midi 440 = 21 := by
  have h0 : ¬ ((440 : ℚ) ≤ 0) := by norm_num
  unfold frequency_to_midi
  rw [if_neg h0]
  have hq : (((440 : ℚ) : ℝ) / 440) = (1 : ℝ) := by norm_num
  have harg : (69 : ℝ) + 12 * Real.logb 2 (((440 : ℚ) : ℝ) / 440) - 48 = ((21 : ℤ) : ℝ) := by
    rw [hq, Real.logb_one]; norm_num
  dsimp only
  rw [harg, pyRound_intCast]
  norm_num

/-- C4: the pitch-to-index mapper sends every non-positive frequency to 0,
is monotone non-decreasing on positive frequencies, and always lands in the
inclusive range [0, 36]. -/
theorem frequency_to_midi_spec (f f1 f2 : ℚ) (hf : f ≤ 0) (h1 : 0 < f1) (h12 : f1 ≤ f2) :
    frequency_to_midi f = 0 ∧
    frequency_to_midi f1 ≤ frequency_to_midi f2 ∧
    ∀ g : ℚ, 0 ≤ frequency_to_midi g ∧ frequency_to_midi g ≤ 36 := by
  refine ⟨?_, ?_, ?_⟩
  · unfold frequency_to_midi
    rw [if_pos hf]
  · have h2 : 0 < f2 := lt_of_lt_of_le h1 h12
    unfold frequency_to_midi
    rw [if_neg (not_le.mpr h1), if_neg (not_le.mpr h2)]
    dsimp only
    have hc1 : (0 : ℝ) < ((f1 : ℚ) : ℝ) / 440 := by
      have : (0 : ℝ) < ((f1 : ℚ) : ℝ) := by exact_mod_cast h1
      positivity
    have hc12 : ((f1 : ℚ) : ℝ) / 440 ≤ ((f2 : ℚ) : ℝ) / 440 := by
      have : ((f1 : ℚ) : ℝ) ≤ ((f2 : ℚ) : ℝ) := by exact_mod_cast h12
      linarith
    have hlog := Real.logb_le_logb_of_le (by norm_num : (1:ℝ) < 2) hc1 hc12
    have hmono : (69 : ℝ) + 12 * Real.logb 2 (((f1 : ℚ) : ℝ) / 440) - 48
        ≤ 69 + 12 * Real.logb 2 (((f2 : ℚ) : ℝ) / 440) - 48 := by linarith
    exact max_le_max le_rfl (min_le_min le_rfl (pyRound_mono hmono))
  · intro g
    unfold frequency_to_midi
    split_ifs with hg
    · norm_num
    · dsimp only
      constructor
      · exact le_max_left 0 _
      · exact max_le (by norm_num) (min_le_left 36 _)

/-- Witness for C4 at concrete inputs. -/
theorem frequency_to_midi_spec_witness :
    frequency_to_midi (-1) = 0 ∧
    frequency_to_midi 220 ≤ frequency_to_midi 440 ∧
    ∀ g : ℚ, 0 ≤ frequency_to_midi g ∧ frequency_to_midi g ≤ 36 :=
  frequency_to_midi_spec (-1) 220 440 (by norm_num) (by norm_num) (by norm_num)

/-- Model of `finalize_note_group` (ultrastar_generator.py lines 258-283): a group entry
is `(time, freq, midi_note, confidence)`.  Returns `none` for an empty
group or one whose span is below the minimum duration; otherwise the note
`(start_time, duration, midi_final)` with the confidence-weighted average
midi (`np.average(midis, weights)` = Σ midi·w / Σ w), banker-rounded and
clamped to [0, 36].
-/
def finalize_note_group (group : List (ℚ × ℚ × ℤ × ℚ)) (min_duration : ℚ) :
    Option (ℚ × ℚ × ℤ) :=
  match group with
  | [] => none
  | p :: ps =>
    let start_time := (ps.map (fun q => q.1)).foldl min p.1
    let end_time := (ps.map (fun q => q.1)).foldl max p.1
    let duration := end_time - start_time
    if duration < min_duration then none
    else
      let wsum := ((p :: ps).map (fun q => q.2.2.2)).sum
      let midi_weighted := ((p :: ps).map (fun q => (q.2.2.1 : ℚ) * q.2.2.2)).sum / wsum
      some (start_time, duration, max 0 (min 36 (pyRound midi_weighted)))

/-- The confidence filter at ultrastar_generator.py line 220:
`filtered_data = [(t, f, c) for t, f, c in pitch_data if c > 0.25]`.
-/
def filtered_data_of (pitch_data : List (ℚ × ℚ × ℚ)) : List (ℚ × ℚ × ℚ) :=
  pitch_data.filter (fun s => 0.25 < s.2.2)

/-- The scan loop of `smooth_pitch_data` (ultrastar_generator.py lines
225-254).  `current_group` is kept newest-sample-first, so its head is
the Python `current_group[-1]`; `finalize_note_group` only takes min/max/sums
of the group, which are order-insensitive.  A sample opens a new group when
the time gap to the last accumulated sample exceeds 0.3 s or the mapped
pitch differs from the last accumulated mapped pitch by more than 2
semitones; the closed group is finalized, and the final open group is
finalized at end of input (finalizing an empty group yields nothing, as in
the Python `if current_group:` guard).
-/
noncomputable def smooth_step (min_duration : ℚ) :
    List (ℚ × ℚ × ℚ) → List (ℚ × ℚ × ℤ × ℚ) → List (ℚ × ℚ × ℤ) → List (ℚ × ℚ × ℤ)
  | [], current_group, notes =>
      notes ++ (finalize_note_group current_group min_duration).toList
  | (time, freq, confidence) :: rest, current_group, notes =>
    let midi_note := frequency_to_midi freq
    match current_group with
    | [] => smooth_step min_duration rest [(time, freq, midi_note, confidence)] notes
    | (last_time, _, last_midi, _) :: _ =>
      if 0.3 < time - last_time ∨ 2 < |midi_note - last_midi| then
        smooth_step min_duration rest [(time, freq, midi_note, confidence)]
          (notes ++ (finalize_note_group current_group min_duration).toList)
      else
        smooth_step min_duration rest
          ((time, freq, midi_note, confidence) :: current_group) notes

/-- Model of `smooth_pitch_data` (ultrastar_generator.py lines 211-256); the Python
default for `min_duration` is 0.4.  The early returns for empty
`pitch_data` / empty `filtered_data` coincide with running the loop on the
empty list.
-/
noncomputable def smooth_pitch_data (pitch_data : List (ℚ × ℚ × ℚ))
    (min_duration : ℚ) : List (ℚ × ℚ × ℤ) :=
  smooth_step min_duration (filtered_data_of pitch_data) [] []

/-- Counterexample to C8 as stated: a sample whose confidence equals the
threshold 0.25 exactly is discarded by the filter, not retained. -/
theorem filtered_data_drops_threshold :
    ¬ (((0 : ℚ), (220 : ℚ), (1/4 : ℚ)) ∈
        filtered_data_of [((0 : ℚ), (220 : ℚ), (1/4 : ℚ))]) := by
  norm_num [filtered_data_of]

/-- C8 (amended): the grouper confidence filter retains exactly the
samples whose confidence is strictly greater than the threshold 0.25;
samples at or below the threshold are discarded. -/
theorem filtered_data_spec (pitch_data : List (ℚ × ℚ × ℚ)) (s : ℚ × ℚ × ℚ) :
    s ∈ filtered_data_of pitch_data ↔ s ∈ pitch_data ∧ (0.25 : ℚ) < s.2.2 := by
  unfold filtered_data_of
  rw [List.mem_filter]
  simp

/-- C3: on the stream [(0.0,220,0.9),(0.1,220,0.9),(0.2,220,0.9),(0.6,440,0.9)]
with minimum note duration 0.2 s (confidence threshold 0.25, max gap 0.3 s
and max jump 2 semitones are fixed in the code), the grouper emits exactly
one note spanning 0.0-0.2 s (start 0, duration 0.2, pitch index 9), and the
second group consisting of the last sample alone is discarded by the
minimum-duration filter. -/
theorem smooth_pitch_data_scenario :
    smooth_pitch_data
        [((0 : ℚ), 220, 0.9), (0.1, 220, 0.9), (0.2, 220, 0.9), (0.6, 440, 0.9)]
        0.2
      = [((0 : ℚ), 0.2, 9)] ∧
    finalize_note_group [((0.6 : ℚ), 440, 21, 0.9)] 0.2 = none := by
  constructor
  · norm_num [smooth_pitch_data, filtered_data_of, smooth_step, finalize_note_group,
      frequency_to_midi_220, frequency_to_midi_440, pyRound]
  · norm_num [finalize_note_group]

/-- One event line of the chart body: a pause line `- beat`, or a note line
`<type> beat duration midi text` where `isStar = true` stands for the
emphasized type tag and `false` for the sung tag. -/
inductive ChartLine where
  | pause (beat : ℤ)
  | note (isStar : Bool) (beat : ℤ) (duration : ℤ) (midi : ℤ) (text : String)
  deriving DecidableEq

/-- The beat number a body line is declared at. -/
def ChartLine.lineBeat : ChartLine → ℤ
  | .pause b => b
  | .note _ b _ _ _ => b

/-- The text assigned to the note at enumeration index `i` given the not
yet consumed lyric words (ultrastar_generator.py lines 449-454): the next
unused word if any remain, otherwise a tilde on every 20th note and the
empty string in between. -/
def assigned_text (lyrics : List String) (i : ℕ) : String :=
  match lyrics with
  | t :: _ => t
  | [] => if i % 20 = 0 then "~" else ""

/-- The body-emission loop of `generate_ultrastar_file`
(ultrastar_generator.py lines 439-463).  Arguments: remaining sorted beat
notes, remaining unconsumed lyric words, enumeration index `i`, and
`last_beat` (initially 0).  Per note: a pause line `- (last_beat+1)` when
`beat - last_beat > 10`; the note line (type `*` iff `duration > 6 or
midi > 25`) only when the assigned text is non-empty; `last_beat` becomes
`beat + duration`.  The lyric index advances exactly when words remain,
which matches dropping the head of the remaining-words list.
-/
def write_note_lines : List (ℤ × ℤ × ℤ) → List String → ℕ → ℤ → List ChartLine
  | [], _, _, _ => []
  | (beat, duration, midi) :: rest, lyrics, i, last_beat =>
    (if 10 < beat - last_beat then [ChartLine.pause (last_beat + 1)] else []) ++
    (if assigned_text lyrics i ≠ "" then
        [ChartLine.note (if 6 < duration ∨ 25 < midi then true else false)
          beat duration midi (assigned_text lyrics i)]
      else []) ++
    write_note_lines rest lyrics.tail (i + 1) (beat + duration)

/-- The Python call `beat_notes.sort(key=lambda x: x[0])` sorts by start
beat. -/
def byStart (a b : ℤ × ℤ × ℤ) : Prop := a.1 ≤ b.1

instance : DecidableRel byStart :=
  fun a b => inferInstanceAs (Decidable (a.1 ≤ b.1))

instance : IsTotal (ℤ × ℤ × ℤ) byStart :=
  ⟨fun a b => le_total a.1 b.1⟩

instance : IsTrans (ℤ × ℤ × ℤ) byStart :=
  ⟨fun _ _ _ hab hbc => le_trans hab hbc⟩

/-- The contents of one generated chart file: the header fields and the
body event lines (terminated in the real file by the fixed `E` marker). -/
structure ChartFile where
  title : String
  artist : String
  mp3 : String
  bpm : ℚ
  gap : ℤ
  endMs : ℤ
  body : List ChartLine
  deriving DecidableEq

/-- Model of `generate_ultrastar_file` (ultrastar_generator.py lines 385-468), modelled
as returning the chart contents; the Python failure returns (`""` on empty
`notes` / empty `beat_notes`) become `none`.  GAP is
`max(0, int(first_note_time * 1000) - 500)`; each note becomes
`(time_to_beats start, max(1, time_to_beats duration with gap 0), midi)`;
non-negative start beats are kept and sorted by start beat (the Python
stable sort, modelled by insertion sort); END is
`int((last_start + last_duration) * 1000)` from the unsorted input list.
-/
def generate_ultrastar_file (notes : List (ℚ × ℚ × ℤ)) (lyrics : List String)
    (title artist audio_filename : String) (bpm : ℚ) (beat_factor : ℤ) :
    Option ChartFile :=
  if h : notes = [] then none
  else
    let first_note_time := (notes.head h).1
    let gap_ms : ℤ := max 0 (pytrunc (first_note_time * 1000) - 500)
    let beat_notes :=
      List.insertionSort byStart
        ((notes.map (fun n =>
            (time_to_beats n.1 bpm gap_ms beat_factor,
             duration_to_beats n.2.1 bpm beat_factor,
             n.2.2))).filter (fun x => 0 ≤ x.1))
    if beat_notes = [] then none
    else
      let last := notes.getLast h
      some { title := title, artist := artist, mp3 := audio_filename,
             bpm := bpm, gap := gap_ms,
             endMs := pytrunc ((last.1 + last.2.1) * 1000),
             body := write_note_lines beat_notes lyrics 0 0 }

/-- Model of `process_files` (ultrastar_generator.py lines 470-544), modelled from the
point where the external estimators have produced the pitch-sample stream
and the tempo: empty pitch data aborts the run, an empty note list from the
grouper aborts the run, otherwise the chart is generated.  `none` models a
failed run in which no chart file is written.  `smooth_pitch_data` is
called with its Python default `min_duration = 0.4`.
-/
noncomputable def process_files (pitch_data : List (ℚ × ℚ × ℚ))
    (lyrics : List String) (title artist audio_filename : String)
    (bpm : ℚ) (beat_factor : ℤ) : Option ChartFile :=
  if pitch_data = [] then none
  else
    let notes := smooth_pitch_data pitch_data 0.4
    if notes = [] then none
    else generate_ultrastar_file notes lyrics title artist audio_filename bpm beat_factor

/-- C7: when the grouper yields zero notes (every candidate group failed
the minimum-duration filter), the run fails and no chart file is
produced. -/
theorem process_files_no_chart_on_degenerate (pitch_data : List (ℚ × ℚ × ℚ))
    (lyrics : List String) (title artist audio_filename : String)
    (bpm : ℚ) (beat_factor : ℤ)
    (h : smooth_pitch_data pitch_data 0.4 = []) :
    process_files pitch_data lyrics title artist audio_filename bpm beat_factor
      = none := by
  by_cases h1 : pitch_data = []
  · simp [process_files, h1]
  · simp [process_files, h1, h]

/-- Witness for C7: a single sample forms a group of span 0, which fails the
0.4 s minimum-duration filter, so the run yields no chart. -/
theorem process_files_no_chart_on_degenerate_witness :
    process_files [((0 : ℚ), 220, 0.9)] [] ("T") ("A") ("x.mp3") 120 4 = none :=
  process_files_no_chart_on_degenerate [((0 : ℚ), 220, 0.9)] [] ("T") ("A") ("x.mp3") 120 4
    (by norm_num [smooth_pitch_data, filtered_data_of, smooth_step, finalize_note_group])

/-- C6: a quantized note whose assigned lyric text is the empty string
produces no line at all in the serialized body (only a possible pause line
for the gap before it), and no note line of any serialized body ever
carries empty text. -/
theorem empty_text_note_dropped (b d m : ℤ) (rest : List (ℤ × ℤ × ℤ))
    (lyrics : List String) (i : ℕ) (lb : ℤ)
    (h : assigned_text lyrics i = "") :
    write_note_lines ((b, d, m) :: rest) lyrics i lb
      = (if 10 < b - lb then [ChartLine.pause (lb + 1)] else []) ++
        write_note_lines rest lyrics.tail (i + 1) (b + d) ∧
    ∀ (bns : List (ℤ × ℤ × ℤ)) (lyr : List String) (j : ℕ) (lb2 : ℤ)
      (s : Bool) (beat dur midi : ℤ) (txt : String),
      ChartLine.note s beat dur midi txt ∈ write_note_lines bns lyr j lb2 →
      txt ≠ "" := by
  constructor
  · rw [write_note_lines, h]
    simp
  · intro bns
    induction bns with
    | nil =>
      intro lyr j lb2 s beat dur midi txt hmem
      simp [write_note_lines] at hmem
    | cons hd tl ih =>
      obtain ⟨b', d', m'⟩ := hd
      intro lyr j lb2 s beat dur midi txt hmem
      rw [write_note_lines] at hmem
      rcases List.mem_append.mp hmem with h1 | h2
      · rcases List.mem_append.mp h1 with hp | hn
        · split_ifs at hp <;> simp at hp
        · by_cases ht : assigned_text lyr j ≠ ""
          · rw [if_pos ht] at hn
            simp only [List.mem_singleton, ChartLine.note.injEq] at hn
            obtain ⟨_, _, _, _, htxt⟩ := hn
            rw [htxt]
            exact ht
          · rw [if_neg ht] at hn
            simp at hn
      · exact ih lyr.tail (j + 1) (b' + d') s beat dur midi txt h2

/-- Witness for C6: with no lyric words left and an enumeration index not
divisible by 20, the assigned text is empty and the single note produces no
body line. -/
theorem empty_text_note_dropped_witness :
    write_note_lines [((0 : ℤ), 1, 0)] [] 1 0
      = (if 10 < (0 : ℤ) - 0 then [ChartLine.pause (0 + 1)] else []) ++
        write_note_lines [] ([] : List String).tail (1 + 1) (0 + 1) ∧
    ∀ (bns : List (ℤ × ℤ × ℤ)) (lyr : List String) (j : ℕ) (lb2 : ℤ)
      (s : Bool) (beat dur midi : ℤ) (txt : String),
      ChartLine.note s beat dur midi txt ∈ write_note_lines bns lyr j lb2 →
      txt ≠ "" :=
  empty_text_note_dropped 0 1 0 [] [] 1 0 (by decide)

/-- C10: a serialized note line carries the emphasized tag exactly when its
duration in beats exceeds 6 or its pitch index exceeds 25; otherwise it
carries the sung tag. -/
theorem note_type_spec (bns : List (ℤ × ℤ × ℤ)) (lyrics : List String)
    (i : ℕ) (lb : ℤ) (s : Bool) (beat dur midi : ℤ) (txt : String)
    (hmem : ChartLine.note s beat dur midi txt ∈ write_note_lines bns lyrics i lb) :
    s = true ↔ (6 < dur ∨ 25 < midi) := by
  induction bns generalizing lyrics i lb with
  | nil => simp [write_note_lines] at hmem
  | cons hd tl ih =>
    obtain ⟨b', d', m'⟩ := hd
    rw [write_note_lines] at hmem
    rcases List.mem_append.mp hmem with h1 | h2
    · rcases List.mem_append.mp h1 with hp | hn
      · split_ifs at hp <;> simp at hp
      · by_cases ht : assigned_text lyrics i ≠ ""
        · rw [if_pos ht] at hn
          simp only [List.mem_singleton, ChartLine.note.injEq] at hn
          obtain ⟨hs, _, hd', hm', _⟩ := hn
          rw [hs, hd', hm']
          by_cases hcond : 6 < d' ∨ 25 < m'
          · simp [hcond]
          · simp [hcond]
        · rw [if_neg ht] at hn
          simp at hn
    · exact ih lyrics.tail (i + 1) (b' + d') h2

/-- Witness for C10 at a concrete serialized note line. -/
theorem note_type_spec_witness : (true = true) ↔ (6 < (7 : ℤ) ∨ 25 < (5 : ℤ)) :=
  note_type_spec [((0 : ℤ), 7, 5)] [("la")] 0 0 true 0 7 5 ("la")
    (by simp [write_note_lines, assigned_text])

theorem insertionSort_ne_nil {l : List (ℤ × ℤ × ℤ)} (h : l ≠ []) :
    List.insertionSort byStart l ≠ [] := by
  intro hs
  exact h ((List.perm_insertionSort byStart l).symm.trans (hs ▸ List.Perm.refl _)).eq_nil

/-- C9: for every non-empty note list the GAP header value of the generated
chart equals `max(0, int(firstNoteStartSeconds * 1000) - 500)`. -/
theorem generate_gap_value (notes : List (ℚ × ℚ × ℤ)) (lyrics : List String)
    (title artist audio_filename : String) (bpm : ℚ) (beat_factor : ℤ)
    (hne : notes ≠ []) :
    Option.map ChartFile.gap
        (generate_ultrastar_file notes lyrics title artist audio_filename bpm beat_factor)
      = some (max 0 (pytrunc ((notes.head hne).1 * 1000) - 500)) := by
  obtain ⟨hd, tl, rfl⟩ := List.exists_cons_of_ne_nil hne
  unfold generate_ultrastar_file
  rw [dif_neg hne]
  dsimp only
  rw [if_neg]
  · rfl
  · apply insertionSort_ne_nil
    intro hf
    have : (time_to_beats hd.1 bpm
        (max 0 (pytrunc (((hd :: tl).head hne).1 * 1000) - 500)) beat_factor,
        duration_to_beats hd.2.1 bpm beat_factor, hd.2.2) ∈
        (((hd :: tl).map (fun n =>
          (time_to_beats n.1 bpm
            (max 0 (pytrunc (((hd :: tl).head hne).1 * 1000) - 500)) beat_factor,
           duration_to_beats n.2.1 bpm beat_factor,
           n.2.2))).filter (fun x => 0 ≤ x.1)) := by
      rw [List.mem_filter]
      refine ⟨List.mem_map_of_mem _ (List.mem_cons_self hd tl), ?_⟩
      simpa using time_to_beats_nonneg hd.1 bpm _ beat_factor
    rw [hf] at this
    exact absurd this (List.not_mem_nil _)

/-- Witness for C9 at a concrete note list. -/
theorem generate_gap_value_witness :
    Option.map ChartFile.gap
        (generate_ultrastar_file [((1 : ℚ), 1, 5)] [] ("T") ("A") ("x.mp3") 120 4)
      = some 500 := by
  have h := generate_gap_value [((1 : ℚ), 1, 5)] [] ("T") ("A") ("x.mp3") 120 4
    (by simp)
  rw [h]
  norm_num [pytrunc]

/-- Start beat of the first remaining beat note, or `dflt` when none
remain. -/
def headBeat (bns : List (ℤ × ℤ × ℤ)) (dflt : ℤ) : ℤ :=
  match bns with
  | [] => dflt
  | (b, _, _) :: _ => b

/-- Emission-loop invariant: on beat notes sorted by start beat whose
durations are all at least 1, the emitted body lines are in non-decreasing
beat order, and every emitted line sits at or after
`min (last_beat + 1) (first start beat)`. -/
theorem write_note_lines_chain (bns : List (ℤ × ℤ × ℤ)) (lyrics : List String)
    (i : ℕ) (lb : ℤ)
    (hsort : List.Chain' (fun a b : ℤ × ℤ × ℤ => a.1 ≤ b.1) bns)
    (hdur : ∀ x ∈ bns, 1 ≤ x.2.1) :
    List.Chain' (fun a b : ChartLine => a.lineBeat ≤ b.lineBeat)
      (write_note_lines bns lyrics i lb) ∧
    ∀ l ∈ write_note_lines bns lyrics i lb,
      min (lb + 1) (headBeat bns (lb + 1)) ≤ l.lineBeat := by
  induction bns generalizing lyrics i lb with
  | nil => simp [write_note_lines]
  | cons hd tl ih =>
    obtain ⟨b, d, m⟩ := hd
    have hd1 : (1 : ℤ) ≤ d := by
      simpa using hdur (b, d, m) (List.mem_cons_self _ _)
    have ihm := ih lyrics.tail (i + 1) (b + d) hsort.tail
      (fun x hx => hdur x (List.mem_cons_of_mem _ hx))
    have hrecb : ∀ l ∈ write_note_lines tl lyrics.tail (i + 1) (b + d),
        b ≤ l.lineBeat := by
      intro l hl
      refine le_trans ?_ (ihm.2 l hl)
      cases tl with
      | nil => simp [write_note_lines] at hl
      | cons hd2 tl2 =>
        obtain ⟨b2, d2, m2⟩ := hd2
        have hb2 : b ≤ b2 := (List.chain'_cons.mp hsort).1
        simp only [headBeat]
        exact le_min (by omega) hb2
    have hrech : ∀ y ∈ (write_note_lines tl lyrics.tail (i + 1) (b + d)).head?,
        b ≤ y.lineBeat :=
      fun y hy => hrecb y (List.mem_of_mem_head? hy)
    rw [write_note_lines]
    simp only [headBeat]
    by_cases hp : 10 < b - lb
    · by_cases ht : assigned_text lyrics i ≠ ""
      · rw [if_pos hp, if_pos ht]
        simp only [List.cons_append, List.nil_append, List.singleton_append]
        constructor
        · refine List.chain'_cons'.mpr ⟨?_, List.chain'_cons'.mpr ⟨hrech, ihm.1⟩⟩
          intro y hy
          simp only [List.head?_cons, Option.mem_def, Option.some.injEq] at hy
          rw [← hy]
          simp only [ChartLine.lineBeat]
          omega
        · intro l hl
          rcases List.mem_cons.mp hl with rfl | hl
          · simp only [ChartLine.lineBeat]
            exact le_trans (min_le_left _ _) le_rfl
          · rcases List.mem_cons.mp hl with rfl | hl
            · simp only [ChartLine.lineBeat]
              exact min_le_right _ _
            · exact le_trans (min_le_right _ _) (hrecb l hl)
      · rw [if_pos hp, if_neg ht]
        simp only [List.cons_append, List.nil_append]
        constructor
        · refine List.chain'_cons'.mpr ⟨?_, ihm.1⟩
          intro y hy
          have hb := hrech y hy
          show lb + 1 ≤ y.lineBeat
          omega
        · intro l hl
          rcases List.mem_cons.mp hl with rfl | hl
          · simp only [ChartLine.lineBeat]
            exact min_le_left _ _
          · exact le_trans (min_le_right _ _) (hrecb l hl)
    · by_cases ht : assigned_text lyrics i ≠ ""
      · rw [if_neg hp, if_pos ht]
        simp only [List.nil_append, List.singleton_append]
        constructor
        · exact List.chain'_cons'.mpr ⟨hrech, ihm.1⟩
        · intro l hl
          rcases List.mem_cons.mp hl with rfl | hl
          · simp only [ChartLine.lineBeat]
            exact min_le_right _ _
          · exact le_trans (min_le_right _ _) (hrecb l hl)
      · rw [if_neg hp, if_neg ht]
        simp only [List.nil_append]
        exact ⟨ihm.1, fun l hl => le_trans (min_le_right _ _) (hrecb l hl)⟩

/-- C5: the body of every chart produced by `generate_ultrastar_file` lists
its event lines — note lines and inserted pause lines alike — in
monotonically non-decreasing beat order. -/
theorem generate_body_sorted (notes : List (ℚ × ℚ × ℤ)) (lyrics : List String)
    (title artist audio_filename : String) (bpm : ℚ) (beat_factor : ℤ)
    (cf : ChartFile)
    (h : generate_ultrastar_file notes lyrics title artist audio_filename bpm beat_factor
          = some cf) :
    List.Chain' (fun x y : ℤ => x ≤ y) (cf.body.map ChartLine.lineBeat) := by
  by_cases hne : notes = []
  · rw [hne] at h
    simp [generate_ultrastar_file] at h
  · unfold generate_ultrastar_file at h
    rw [dif_neg hne] at h
    dsimp only at h
    split_ifs at h with hbn
    simp only [Option.some.injEq] at h
    rw [← h]
    dsimp only
    rw [List.chain'_map]
    refine (write_note_lines_chain _ lyrics 0 0 ?_ ?_).1
    · exact (List.sorted_insertionSort byStart _).chain'
    · intro x hx
      rw [List.mem_insertionSort] at hx
      rw [List.mem_filter] at hx
      obtain ⟨hx, _⟩ := hx
      rw [List.mem_map] at hx
      obtain ⟨n, _, rfl⟩ := hx
      exact one_le_duration_to_beats n.2.1 bpm beat_factor

/-- Witness for C5 at a concrete one-note input. -/
theorem generate_body_sorted_witness :
    List.Chain' (fun x y : ℤ => x ≤ y)
      ((ChartFile.mk ("T") ("A") ("x.mp3") 120 500 2000
          [ChartLine.note true 4 8 5 ("la")]).body.map ChartLine.lineBeat) :=
  generate_body_sorted [((1 : ℚ), 1, 5)] [("la")] ("T") ("A") ("x.mp3") 120 4
    (ChartFile.mk ("T") ("A") ("x.mp3") 120 500 2000 [ChartLine.note true 4 8 5 ("la")])
    (by norm_num [generate_ultrastar_file, time_to_beats, duration_to_beats, pytrunc,
      pyRound, write_note_lines, assigned_text, List.insertionSort, List.orderedInsert] <;>
      decide)

end UltraStar
